import Mathlib

/-!
Verification development for the `feedbin-auto-archiver` rule engine
(`feedbin_archiver.py`).  The Python classes `Rules` and the decision core of
`run_archive` are shallowly embedded below; durations (`datetime.timedelta`)
are modelled as integer microsecond counts, Python dictionaries as
insertion-ordered association lists, and the external `re` module as an
abstract engine supplying `compiles` (does `re.compile` succeed) and
`search` (does `re.search` find a match).
-/

namespace FeedbinArchiver

/-- A JSON-ish configuration value, as found in a rules dictionary:
an integer, a string, or any other value (list, object, null, float…). -/
inductive JVal where
  | jint (n : Int)
  | jstr (s : String)
  | jother
deriving DecidableEq, Repr

/-- Decimal-digit parse of a character list (all digits, non-empty). -/
def parseDigits : List Char → Option Nat
  | [] => none
  | [c] => if c.isDigit then some (c.toNat - 48) else none
  | c :: rest =>
    if c.isDigit then
      match parseDigits rest with
      | some n => some ((c.toNat - 48) * 10 ^ rest.length + n)
      | none => none
    else none

/-- Models Python's `int(...)` coercion on the value kinds that occur in rule
configurations: integers pass through, strings are parsed as optionally signed
decimal literals, anything else raises `ValueError`/`TypeError` (`none`). -/
def pyInt : JVal → Option Int
  | JVal.jint n => some n
  | JVal.jstr s =>
    match s.data with
    | '-' :: rest => (parseDigits rest).map (fun n => -(n : Int))
    | '+' :: rest => (parseDigits rest).map (fun n => (n : Int))
    | l => (parseDigits l).map (fun n => (n : Int))
  | JVal.jother => none

/-- Abstract interface to Python's `re` module (an external library):
`compiles p` is true when `re.compile(p)` succeeds, and `search p t` is true
when `re.search(p, t)` finds a match of pattern `p` anywhere in `t`. -/
structure RegexEngine where
  compiles : String → Bool
  search : String → String → Bool

/-- A concrete engine for examples: every pattern compiles and `search` is
plain substring search (Python `re.search` restricted to literal patterns). -/
def litEngine : RegexEngine where
  compiles := fun _ => true
  search := fun p t => decide (List.IsInfix p.data t.data)

/-- Association-list update with Python-dict semantics: an existing key keeps
its position and gets the new value; a new key is appended at the end. -/
def upsert {α β : Type} [DecidableEq α] (k : α) (v : β) :
    List (α × β) → List (α × β)
  | [] => [(k, v)]
  | (k', v') :: rest =>
    if k' = k then (k, v) :: rest else (k', v') :: upsert k v rest

/-- Association-list lookup (Python `d[k]` / `k in d`). -/
def alookup {α β : Type} [DecidableEq α] (k : α) :
    List (α × β) → Option β
  | [] => none
  | (k', v) :: rest => if k' = k then some v else alookup k rest

/-- Python truthiness of an optional string (`if feed_title:`):
`None` and the empty string are falsy. -/
def optTruthy : Option String → Bool
  | none => false
  | some s => s != ""

/-- Microseconds per day; `datetime.timedelta` has microsecond resolution. -/
def microsPerDay : Int := 86400000000

/-- `datetime.timedelta(days=n)` as a microsecond count. -/
def timedeltaDays (n : Int) : Int := n * microsPerDay

/-- `datetime.timedelta.max` = 999999999 days, 23:59:59.999999. -/
def timedeltaMax : Int := 999999999 * microsPerDay + 86399999999

/-- `timedelta.days`: floor division of the microsecond count by one day. -/
def tdDays (micros : Int) : Int := Int.fdiv micros microsPerDay

/-- One decimal digit as a character. -/
def digitChar (d : Nat) : Char :=
  match d with
  | 0 => '0' | 1 => '1' | 2 => '2' | 3 => '3' | 4 => '4'
  | 5 => '5' | 6 => '6' | 7 => '7' | 8 => '8' | _ => '9'

/-- Decimal digit characters of a natural number (most significant first),
with a fuel argument so that the recursion is structural. -/
def natToDecCharsAux : Nat → Nat → List Char
  | 0, _ => []
  | fuel + 1, n =>
    if n < 10 then [digitChar n]
    else natToDecCharsAux fuel (n / 10) ++ [digitChar (n % 10)]

/-- Decimal digit characters of a natural number (most significant first). -/
def natToDecChars (n : Nat) : List Char := natToDecCharsAux (n + 1) n

/-- Python `"{:d}".format(i)`: signed decimal rendering of an integer. -/
def intToDec (i : Int) : String :=
  match i with
  | Int.ofNat n => ⟨natToDecChars n⟩
  | Int.negSucc n => ⟨'-' :: natToDecChars (n + 1)⟩

/-- The state of a `Rules` object (`Rules.__init__`): the default max-age in
days, the optional single-feed restriction, and the four rule dictionaries. -/
structure Rules where
  default_max_age : Int
  only_feed_id : Option Int
  feed_rules : List (Int × Int)
  keep_n_rules : List (Int × Int)
  title_regex_rules : List (String × Int)
  title_regex_keep_n_rules : List (String × Int)
deriving DecidableEq, Repr

/-- `Rules(max_age, only_feed_id)`: fresh store with empty dictionaries. -/
def mkRules (max_age : Int) (only_feed_id : Option Int) : Rules where
  default_max_age := max_age
  only_feed_id := only_feed_id
  feed_rules := []
  keep_n_rules := []
  title_regex_rules := []
  title_regex_keep_n_rules := []

/-- Minimum of a non-empty list given as head and tail (Python `min`). -/
def listMin1 (x : Int) (xs : List Int) : Int := xs.foldl min x

/-- The max-age values of every title-regex rule whose pattern matches the
feed title (the loop in `Rules.max_age` / `Rules.keep_n`). -/
def matchingVals (eng : RegexEngine) (rules : List (String × Int))
    (feed_title : Option String) : List Int :=
  if optTruthy feed_title then
    (rules.filter (fun p => eng.search p.1 (feed_title.getD ""))).map Prod.snd
  else []

/-- The applicable max-age values beyond the default collected by
`Rules.max_age`: the feed-specific value (if any), then every matching
title-regex value. -/
def maxAgeList (r : Rules) (eng : RegexEngine) (feed_id : Int)
    (feed_title : Option String) : List Int :=
  (match alookup feed_id r.feed_rules with
   | some v => [v]
   | none => []) ++ matchingVals eng r.title_regex_rules feed_title

/-- Translated from `Rules.max_age`: minimum of the default max-age, the
feed-specific max-age (if any) and all matching title-regex max-ages, as a
duration; `timedelta.max` for feeds excluded by the single-feed restriction. -/
def Rules.max_age (r : Rules) (eng : RegexEngine) (feed_id : Int)
    (feed_title : Option String) : Int :=
  let retv := listMin1 r.default_max_age (maxAgeList r eng feed_id feed_title)
  match r.only_feed_id with
  | some ofid => if feed_id ≠ ofid then timedeltaMax else timedeltaDays retv
  | none => timedeltaDays retv

/-- The applicable keep-n values collected by `Rules.keep_n`: the
feed-specific value (if any), then every matching title-regex value. -/
def keepNList (r : Rules) (eng : RegexEngine) (feed_id : Int)
    (feed_title : Option String) : List Int :=
  (match alookup feed_id r.keep_n_rules with
   | some v => [v]
   | none => []) ++ matchingVals eng r.title_regex_keep_n_rules feed_title

/-- Translated from `Rules.keep_n`: minimum of the feed-specific keep-n (if
any) and all matching title-regex keep-ns, `none` if no keep-n rule applies or
the feed is excluded by the single-feed restriction. -/
def Rules.keep_n (r : Rules) (eng : RegexEngine) (feed_id : Int)
    (feed_title : Option String) : Option Int :=
  let retv :=
    match keepNList r eng feed_id feed_title with
    | [] => none
    | x :: xs => some (listMin1 x xs)
  match r.only_feed_id with
  | some ofid => if feed_id ≠ ofid then none else retv
  | none => retv

/-- Translated from `Rules.uses_keep_n`: true when a feed-specific or
matching title-regex keep-n rule exists (the restriction is ignored). -/
def Rules.uses_keep_n (r : Rules) (eng : RegexEngine) (feed_id : Int)
    (feed_title : Option String) : Bool :=
  if (alookup feed_id r.keep_n_rules).isSome then true
  else if optTruthy feed_title then
    r.title_regex_keep_n_rules.any
      (fun p => eng.search p.1 (feed_title.getD ""))
  else false

/-- Translated from `Rules.uses_max_age`: true when a feed-specific or
matching title-regex max-age rule exists, or when no keep-n rule applies
(max-age is the fallback policy). -/
def Rules.uses_max_age (r : Rules) (eng : RegexEngine) (feed_id : Int)
    (feed_title : Option String) : Bool :=
  if (alookup feed_id r.feed_rules).isSome then true
  else if optTruthy feed_title &&
      r.title_regex_rules.any (fun p => eng.search p.1 (feed_title.getD ""))
    then true
  else !(r.uses_keep_n eng feed_id feed_title)

/-- The exact message of `Rules.ValidationException`. -/
def validationMsg (id : Int) : String :=
  "A rule has been specified for feed ID " ++ intToDec id ++
    ", but you\x27re not subscribed to a feed with that ID."

/-- The `all_feed_ids` list of `Rules.validate_rules`: every feed id
referenced by a feed-specific rule (max-age keys, then keep-n keys) followed
by the single-feed restriction, if set. -/
def referencedIds (r : Rules) : List Int :=
  r.feed_rules.map Prod.fst ++ r.keep_n_rules.map Prod.fst ++
    (match r.only_feed_id with
     | some i => [i]
     | none => [])

/-- Translated from `Rules.validate_rules`: the feed ids referenced by
feed-specific rules and the single-feed restriction are checked against the
subscription list in order; the first missing one raises
`ValidationException` (returned here as `some message`). -/
def Rules.validate_rules (r : Rules) (feeds : List Int) : Option String :=
  ((referencedIds r).find? (fun id => !(feeds.contains id))).map validationMsg

/-- One element of the `feed_specific` list: a JSON object with the three
keys the code reads, each possibly absent. -/
structure FeedRuleEntry where
  feed_id : Option JVal
  max_age : Option JVal
  keep_n : Option JVal
deriving DecidableEq, Repr

/-- One element of the `title_regex` list: a JSON object with a pattern
string (possibly absent) and the two threshold keys. -/
structure TitleRuleEntry where
  pattern : Option String
  max_age : Option JVal
  keep_n : Option JVal
deriving DecidableEq, Repr

/-- The rules dictionary passed to `Rules.add_rules`: the three top-level
keys the code reads, each possibly absent. -/
structure RulesDict where
  max_age : Option JVal
  feed_specific : Option (List FeedRuleEntry)
  title_regex : Option (List TitleRuleEntry)
deriving DecidableEq, Repr

/-- An exception escaping `Rules.add_rules`: a `Rules.SpecException` with its
message, or a `ValueError` raised by a failing `int(...)` coercion. -/
inductive LoadError where
  | specError (msg : String)
  | valueError
deriving DecidableEq, Repr

/-- Is the load outcome a `SpecException`? -/
def isSpecErr : Option LoadError → Bool
  | some (LoadError.specError _) => true
  | _ => false

/-- Processing of one `feed_specific` entry inside `Rules.add_rules`, in
source order: missing `feed_id` → `SpecException`; neither `max_age` nor
`keep_n` → `SpecException`; then the `int(...)` coercions and dictionary
stores, each coercion able to raise `ValueError` with the stores made so far
retained.  Returns the (possibly partially) updated store and the raised
exception, if any. -/
def processFeedRule (r : Rules) (rule : FeedRuleEntry) :
    Rules × Option LoadError :=
  match rule.feed_id with
  | none => (r, some (LoadError.specError "Feed rule must include a feed_id."))
  | some fidv =>
    if rule.max_age.isNone && rule.keep_n.isNone then
      (r, some (LoadError.specError
        "Feed rule must include at least max_age or keep_n."))
    else
      match pyInt fidv with
      | none => (r, some LoadError.valueError)
      | some feed_id =>
        match rule.max_age with
        | some mv =>
          match pyInt mv with
          | none => (r, some LoadError.valueError)
          | some m =>
            let r1 := { r with feed_rules := upsert feed_id m r.feed_rules }
            match rule.keep_n with
            | some kv =>
              match pyInt kv with
              | none => (r1, some LoadError.valueError)
              | some k =>
                ({ r1 with
                    keep_n_rules := upsert feed_id k r1.keep_n_rules }, none)
            | none => (r1, none)
        | none =>
          match rule.keep_n with
          | some kv =>
            match pyInt kv with
            | none => (r, some LoadError.valueError)
            | some k =>
              ({ r with
                  keep_n_rules := upsert feed_id k r.keep_n_rules }, none)
          | none => (r, none)

/-- Processing of one `title_regex` entry inside `Rules.add_rules`, in
source order: missing `title_regex` key → `SpecException`; neither threshold
→ `SpecException`; failing `re.compile` → `SpecException`; then the
`int(...)` coercions and dictionary stores. -/
def processTitleRule (eng : RegexEngine) (r : Rules) (rule : TitleRuleEntry) :
    Rules × Option LoadError :=
  match rule.pattern with
  | none =>
    (r, some (LoadError.specError "Title regex rule must include a title_regex."))
  | some pat =>
    if rule.max_age.isNone && rule.keep_n.isNone then
      (r, some (LoadError.specError
        "Title regex rule must include at least max_age or keep_n."))
    else if !eng.compiles pat then
      (r, some (LoadError.specError ("Invalid regex pattern " ++ pat)))
    else
      match rule.max_age with
      | some mv =>
        match pyInt mv with
        | none => (r, some LoadError.valueError)
        | some m =>
          let r1 :=
            { r with title_regex_rules := upsert pat m r.title_regex_rules }
          match rule.keep_n with
          | some kv =>
            match pyInt kv with
            | none => (r1, some LoadError.valueError)
            | some k =>
              ({ r1 with
                  title_regex_keep_n_rules :=
                    upsert pat k r1.title_regex_keep_n_rules }, none)
          | none => (r1, none)
      | none =>
        match rule.keep_n with
        | some kv =>
          match pyInt kv with
          | none => (r, some LoadError.valueError)
          | some k =>
            ({ r with
                title_regex_keep_n_rules :=
                  upsert pat k r.title_regex_keep_n_rules }, none)
        | none => (r, none)

/-- A `for` loop over rule entries that stops at the first raised exception,
keeping the mutations made so far. -/
def processList {α : Type} (f : Rules → α → Rules × Option LoadError) :
    Rules → List α → Rules × Option LoadError
  | r, [] => (r, none)
  | r, x :: xs =>
    match f r x with
    | (r', none) => processList f r' xs
    | (r', some e) => (r', some e)

/-- The `self.default_max_age = int(rules_dict["max_age"])` prologue of
`Rules.add_rules` (a no-op when the key is absent). -/
def step0 (r : Rules) (d : RulesDict) : Rules × Option LoadError :=
  match d.max_age with
  | some v =>
    match pyInt v with
    | none => (r, some LoadError.valueError)
    | some n => ({ r with default_max_age := n }, none)
  | none => (r, none)

/-- Sequencing under exceptions: run the continuation only when no exception
has been raised yet, keeping the mutations made so far otherwise. -/
def thenStep (res : Rules × Option LoadError)
    (f : Rules → Rules × Option LoadError) : Rules × Option LoadError :=
  match res with
  | (r, some e) => (r, some e)
  | (r, none) => f r

/-- Translated from `Rules.add_rules`: the optional global `max_age`
override, then the `feed_specific` list, then the `title_regex` list, then
the final check that at least one rule family is present.  The returned
store reflects every mutation made before any raised exception. -/
def addRules (eng : RegexEngine) (r : Rules) (d : RulesDict) :
    Rules × Option LoadError :=
  thenStep (thenStep (step0 r d)
      (fun r0 => processList processFeedRule r0 (d.feed_specific.getD [])))
    (fun r1 =>
      thenStep (processList (processTitleRule eng) r1 (d.title_regex.getD []))
        (fun r2 =>
          if d.feed_specific.isNone && d.title_regex.isNone then
            (r2, some (LoadError.specError
              "Rules file must contain either feed_specific or title_regex rules."))
          else (r2, none)))

/-- An unread entry, reduced to the fields that influence the archival
decision: its id, owning feed, and publish timestamp in microseconds since
the epoch (display-only fields such as title, summary, content and url never
affect the decision and are omitted). -/
structure Entry where
  id : Int
  feed_id : Int
  published : Int
deriving DecidableEq, Repr

/-- The decision produced for one entry: archive or keep, with the
accumulated human-readable reasons. -/
structure Decision where
  entry : Entry
  archive : Bool
  reasons : List String
deriving DecidableEq, Repr

/-- The reason string `"keeping only {keep:d} most recent entries"`. -/
def keepNReason (k : Int) : String :=
  "keeping only " ++ intToDec k ++ " most recent entries"

/-- The reason string `"{age:d} days old (max age is {max:d} days)"`. -/
def maxAgeReason (ageDays maxDays : Int) : String :=
  intToDec ageDays ++ " days old (max age is " ++ intToDec maxDays ++ " days)"

/-- The keep-n block of the loop body in `run_archive`: when `uses_keep_n`,
bump the feed's counter and trigger when the post-increment counter exceeds
the effective keep-n.  Returns the updated counter map, the trigger, and the
reason list it contributes. -/
def keepNStep (r : Rules) (eng : RegexEngine) (feed_id : Int)
    (feed_title : String) (counts : List (Int × Int)) :
    List (Int × Int) × Bool × List String :=
  if r.uses_keep_n eng feed_id (some feed_title) then
    let counts' := upsert feed_id ((alookup feed_id counts).getD 0 + 1) counts
    match r.keep_n eng feed_id (some feed_title) with
    | some keep_n =>
      if (alookup feed_id counts').getD 0 > keep_n then
        (counts', true, [keepNReason keep_n])
      else (counts', false, ([] : List String))
    | none => (counts', false, ([] : List String))
  else (counts, false, ([] : List String))

/-- The max-age block of the loop body in `run_archive`: when `uses_max_age`,
trigger when the entry age strictly exceeds the effective max-age. -/
def maxAgeStep (r : Rules) (eng : RegexEngine) (feed_id : Int)
    (feed_title : String) (entry_age : Int) : Bool × List String :=
  if r.uses_max_age eng feed_id (some feed_title) then
    let max_age := r.max_age eng feed_id (some feed_title)
    if entry_age > max_age then
      (true, [maxAgeReason (tdDays entry_age) (tdDays max_age)])
    else (false, ([] : List String))
  else (false, ([] : List String))

/-- The per-entry body of the loop in `run_archive`: the keep-n block, then
the max-age block; the decision is the disjunction of the two triggers and
the reasons accumulate in source order. -/
def processEntry (r : Rules) (eng : RegexEngine) (feedTitle : Int → String)
    (now : Int) (counts : List (Int × Int)) (e : Entry) :
    List (Int × Int) × Decision :=
  let ks := keepNStep r eng e.feed_id (feedTitle e.feed_id) counts
  let ms := maxAgeStep r eng e.feed_id (feedTitle e.feed_id) (now - e.published)
  (ks.1,
    { entry := e
      archive := ks.2.1 || ms.1
      reasons := ks.2.2 ++ ms.2 })

/-- Newest-first ordering of entries: `a` may come before `b` when
`b.published ≤ a.published`. -/
def entryGE (a b : Entry) : Prop := b.published ≤ a.published

instance : DecidableRel entryGE := fun a b => Int.decLe b.published a.published

instance : IsTotal Entry entryGE :=
  ⟨fun a b => Int.le_total b.published a.published⟩

instance : IsTrans Entry entryGE :=
  ⟨fun _ _ _ h1 h2 => Int.le_trans h2 h1⟩

/-- `entries.sort(key=lambda e: e["parsed_date"], reverse=True)`: stable sort
by publish timestamp, newest first (Python's sort is stable, and any two
stable sorts under the same total preorder agree, so insertion sort models
it exactly). -/
def sortEntries (entries : List Entry) : List Entry :=
  entries.insertionSort entryGE

/-- The decision core of `run_archive`: sort the entries newest-first, then
fold the per-entry loop body over them with an initially empty per-feed
counter map, collecting one decision per entry in traversal order. -/
def runArchive (r : Rules) (eng : RegexEngine) (feedTitle : Int → String)
    (now : Int) (entries : List Entry) : List Decision :=
  ((sortEntries entries).foldl
    (fun st e =>
      let step := processEntry r eng feedTitle now st.1 e
      (step.1, st.2 ++ [step.2]))
    (([] : List (Int × Int)), ([] : List Decision))).2

/-! ### Helper lemmas -/

theorem listMin1_cons (x y : Int) (ys : List Int) :
    listMin1 x (y :: ys) = listMin1 (min x y) ys := rfl

theorem listMin1_mono_base {x x' : Int} (xs : List Int) (h : x ≤ x') :
    listMin1 x xs ≤ listMin1 x' xs := by
  induction xs generalizing x x' with
  | nil => exact h
  | cons y ys ih =>
    rw [listMin1_cons, listMin1_cons]
    exact ih (min_le_min_right y h)

theorem listMin1_le_base (x : Int) (xs : List Int) : listMin1 x xs ≤ x := by
  induction xs generalizing x with
  | nil => exact le_refl x
  | cons y ys ih =>
    rw [listMin1_cons]
    exact le_trans (ih (min x y)) (min_le_left x y)

theorem listMin1_le_mem (x : Int) (xs : List Int) :
    ∀ y ∈ xs, listMin1 x xs ≤ y := by
  induction xs generalizing x with
  | nil => intro y hy; cases hy
  | cons z zs ih =>
    intro y hy
    rw [listMin1_cons]
    rcases List.mem_cons.mp hy with h | h
    · subst h
      exact le_trans (listMin1_le_base (min x y) zs) (min_le_right x y)
    · exact ih (min x z) y h

theorem listMin1_eq_base_or_mem (x : Int) (xs : List Int) :
    listMin1 x xs = x ∨ listMin1 x xs ∈ xs := by
  induction xs generalizing x with
  | nil => left; rfl
  | cons y ys ih =>
    rw [listMin1_cons]
    rcases ih (min x y) with h | h
    · rcases min_cases x y with ⟨he, _⟩ | ⟨he, _⟩
      · left; rw [h, he]
      · right; rw [h, he]; exact List.mem_cons_self y ys
    · right; exact List.mem_cons_of_mem y h

theorem alookup_upsert_self {α β : Type} [DecidableEq α] (k : α) (v : β)
    (l : List (α × β)) : alookup k (upsert k v l) = some v := by
  induction l with
  | nil => simp [upsert, alookup]
  | cons p rest ih =>
    by_cases h : p.1 = k
    · simp [upsert, h, alookup]
    · simp [upsert, h, alookup, ih]

theorem alookup_append {α β : Type} [DecidableEq α] (k : α)
    (l1 l2 : List (α × β)) :
    alookup k (l1 ++ l2) =
      match alookup k l1 with
      | some v => some v
      | none => alookup k l2 := by
  induction l1 with
  | nil => simp [alookup]
  | cons p rest ih =>
    by_cases h : p.1 = k
    · simp [alookup, h]
    · simp [alookup, h, ih]

theorem upsert_of_alookup_none {α β : Type} [DecidableEq α] {k : α}
    {l : List (α × β)} (v : β) (h : alookup k l = none) :
    upsert k v l = l ++ [(k, v)] := by
  induction l with
  | nil => rfl
  | cons p rest ih =>
    by_cases hk : p.1 = k
    · simp [alookup, hk] at h
    · simp [alookup, hk] at h
      simp [upsert, hk, ih h]

/-- A title is "provided" (Python-truthy) and matched by a pattern. -/
def titleProvidedMatch (eng : RegexEngine) (feed_title : Option String)
    (pat : String) : Prop :=
  ∃ t, feed_title = some t ∧ t ≠ "" ∧ eng.search pat t = true

theorem mem_matchingVals (eng : RegexEngine) (rules : List (String × Int))
    (feed_title : Option String) (v : Int) :
    v ∈ matchingVals eng rules feed_title ↔
      ∃ p ∈ rules, titleProvidedMatch eng feed_title p.1 ∧ p.2 = v := by
  unfold matchingVals titleProvidedMatch
  cases feed_title with
  | none => simp [optTruthy]
  | some t =>
    by_cases ht : t = ""
    · subst ht
      simp [optTruthy]
    · simp only [optTruthy, bne_iff_ne, ne_eq, ht, not_false_eq_true, if_true,
        List.mem_map, List.mem_filter, Option.getD_some]
      constructor
      · rintro ⟨p, ⟨hp, hs⟩, hv⟩
        exact ⟨p, hp, ⟨t, rfl, ht, hs⟩, hv⟩
      · rintro ⟨p, hp, ⟨t', ht', hne, hs⟩, hv⟩
        cases Option.some.inj ht'
        exact ⟨p, ⟨hp, hs⟩, hv⟩

theorem anyMatch_iff (eng : RegexEngine) (rules : List (String × Int))
    (t : String) (ht : t ≠ "") :
    (rules.any (fun p => eng.search p.1 t) = true) ↔
      ∃ p ∈ rules, titleProvidedMatch eng (some t) p.1 := by
  rw [List.any_eq_true]
  constructor
  · rintro ⟨p, hp, hs⟩
    exact ⟨p, hp, t, rfl, ht, hs⟩
  · rintro ⟨p, hp, t', ht', _, hs⟩
    cases Option.some.inj ht'
    exact ⟨p, hp, hs⟩

theorem digitChar_isDigit (d : Nat) : (digitChar d).isDigit = true := by
  unfold digitChar
  split <;> decide

theorem mem_natToDecCharsAux_isDigit :
    ∀ (fuel n : Nat) (c : Char), c ∈ natToDecCharsAux fuel n →
      c.isDigit = true := by
  intro fuel
  induction fuel with
  | zero => intro n c hc; cases hc
  | succ f ih =>
    intro n c hc
    unfold natToDecCharsAux at hc
    by_cases h : n < 10
    · rw [if_pos h] at hc
      rcases List.mem_singleton.mp hc with rfl
      exact digitChar_isDigit n
    · rw [if_neg h] at hc
      rcases List.mem_append.mp hc with h2 | h2
      · exact ih _ c h2
      · rcases List.mem_singleton.mp h2 with rfl
        exact digitChar_isDigit (n % 10)

theorem mem_intToDec (i : Int) (c : Char) (hc : c ∈ (intToDec i).data) :
    c.isDigit = true ∨ c = '-' := by
  cases i with
  | ofNat n =>
    exact Or.inl (mem_natToDecCharsAux_isDigit _ _ c hc)
  | negSucc n =>
    rcases List.mem_cons.mp hc with rfl | h
    · exact Or.inr rfl
    · exact Or.inl (mem_natToDecCharsAux_isDigit _ _ c h)

theorem k_not_mem_intToDec (i : Int) : 'k' ∉ (intToDec i).data := by
  intro h
  rcases mem_intToDec i 'k' h with hd | hd
  · simp [Char.isDigit] at hd
  · cases hd

theorem keepNReason_ne_maxAgeReason (k a m : Int) :
    keepNReason k ≠ maxAgeReason a m := by
  intro h
  have hd := congrArg String.data h
  simp only [keepNReason, maxAgeReason, String.data_append] at hd
  have hk : 'k' ∈ ("keeping only ").data ++ (intToDec k).data ++
      (" most recent entries").data := by
    refine List.mem_append.mpr (Or.inl ?_)
    refine List.mem_append.mpr (Or.inl ?_)
    decide
  rw [hd] at hk
  rcases List.mem_append.mp hk with h1 | h1
  · rcases List.mem_append.mp h1 with h2 | h2
    · rcases List.mem_append.mp h2 with h3 | h3
      · exact k_not_mem_intToDec a h3
      · revert h3; decide
    · exact k_not_mem_intToDec m h2
  · revert h1; decide

/-! ### Spec-side applicability predicates and the rule-query claims -/

/-- The spec's set of applicable max-age values for `effectiveMaxAge`: the
default, the feed-specific override if present, and the value of every
title-pattern rule whose pattern matches the provided title. -/
def applicableMaxAge (r : Rules) (eng : RegexEngine) (feed_id : Int)
    (feed_title : Option String) (v : Int) : Prop :=
  v = r.default_max_age ∨ alookup feed_id r.feed_rules = some v ∨
    ∃ p ∈ r.title_regex_rules, titleProvidedMatch eng feed_title p.1 ∧ p.2 = v

/-- The spec's set of applicable keep-n values for `effectiveKeepN`: the
feed-specific value if present, and the value of every matching
title-pattern keep-n rule. -/
def applicableKeepN (r : Rules) (eng : RegexEngine) (feed_id : Int)
    (feed_title : Option String) (v : Int) : Prop :=
  alookup feed_id r.keep_n_rules = some v ∨
    ∃ p ∈ r.title_regex_keep_n_rules, titleProvidedMatch eng feed_title p.1 ∧ p.2 = v

theorem mem_maxAgeList (r : Rules) (eng : RegexEngine) (feed_id : Int)
    (feed_title : Option String) (v : Int) :
    v ∈ maxAgeList r eng feed_id feed_title ↔
      alookup feed_id r.feed_rules = some v ∨
        ∃ p ∈ r.title_regex_rules,
          titleProvidedMatch eng feed_title p.1 ∧ p.2 = v := by
  unfold maxAgeList
  rw [List.mem_append, mem_matchingVals]
  cases h : alookup feed_id r.feed_rules with
  | none => simp
  | some w => simp [eq_comm]

theorem mem_keepNList (r : Rules) (eng : RegexEngine) (feed_id : Int)
    (feed_title : Option String) (v : Int) :
    v ∈ keepNList r eng feed_id feed_title ↔
      applicableKeepN r eng feed_id feed_title v := by
  unfold keepNList applicableKeepN
  rw [List.mem_append, mem_matchingVals]
  cases h : alookup feed_id r.keep_n_rules with
  | none => simp
  | some w => simp [eq_comm]

theorem max_age_excluded (r : Rules) (eng : RegexEngine) (feed_id : Int)
    (feed_title : Option String) (ofid : Int) (h : r.only_feed_id = some ofid)
    (hne : feed_id ≠ ofid) :
    r.max_age eng feed_id feed_title = timedeltaMax := by
  simp [Rules.max_age, h, hne]

theorem max_age_included (r : Rules) (eng : RegexEngine) (feed_id : Int)
    (feed_title : Option String)
    (h : r.only_feed_id = none ∨ r.only_feed_id = some feed_id) :
    r.max_age eng feed_id feed_title =
      timedeltaDays
        (listMin1 r.default_max_age (maxAgeList r eng feed_id feed_title)) := by
  rcases h with h | h <;> simp [Rules.max_age, h]

theorem keep_n_excluded (r : Rules) (eng : RegexEngine) (feed_id : Int)
    (feed_title : Option String) (ofid : Int) (h : r.only_feed_id = some ofid)
    (hne : feed_id ≠ ofid) :
    r.keep_n eng feed_id feed_title = none := by
  simp [Rules.keep_n, h, hne]

theorem keep_n_included (r : Rules) (eng : RegexEngine) (feed_id : Int)
    (feed_title : Option String)
    (h : r.only_feed_id = none ∨ r.only_feed_id = some feed_id) :
    r.keep_n eng feed_id feed_title =
      match keepNList r eng feed_id feed_title with
      | [] => none
      | x :: xs => some (listMin1 x xs) := by
  rcases h with h | h <;> simp [Rules.keep_n, h]

theorem timedeltaDays_mono {a b : Int} (h : a ≤ b) :
    timedeltaDays a ≤ timedeltaDays b := by
  unfold timedeltaDays
  exact mul_le_mul_of_nonneg_right h (by decide)

/-- C1: `Rules.max_age` (effectiveMaxAge) returns the minimum of the set
containing the default max-age, the feed-specific max-age if present, and the
max-age of every title-pattern rule matching the given title — the result is
an element of that set and a lower bound of it — except that under an active
single-feed restriction a different feed gets the effectively infinite
duration `timedelta.max`. -/
theorem max_age_min_spec (r : Rules) (eng : RegexEngine) (feed_id : Int)
    (feed_title : Option String) :
    (∀ ofid, r.only_feed_id = some ofid → feed_id ≠ ofid →
        r.max_age eng feed_id feed_title = timedeltaMax) ∧
    ((r.only_feed_id = none ∨ r.only_feed_id = some feed_id) →
      (∃ v, applicableMaxAge r eng feed_id feed_title v ∧
          r.max_age eng feed_id feed_title = timedeltaDays v) ∧
      (∀ v, applicableMaxAge r eng feed_id feed_title v →
          r.max_age eng feed_id feed_title ≤ timedeltaDays v)) := by
  constructor
  · intro ofid h hne
    exact max_age_excluded r eng feed_id feed_title ofid h hne
  · intro h
    rw [max_age_included r eng feed_id feed_title h]
    constructor
    · rcases listMin1_eq_base_or_mem r.default_max_age
          (maxAgeList r eng feed_id feed_title) with he | he
      · exact ⟨r.default_max_age, Or.inl rfl, by rw [he]⟩
      · refine ⟨listMin1 r.default_max_age (maxAgeList r eng feed_id feed_title),
          ?_, rfl⟩
        rcases (mem_maxAgeList r eng feed_id feed_title _).mp he with h1 | h1
        · exact Or.inr (Or.inl h1)
        · exact Or.inr (Or.inr h1)
    · intro v hv
      apply timedeltaDays_mono
      rcases hv with rfl | h1 | h1
      · exact listMin1_le_base _ _
      · exact listMin1_le_mem _ _ v
          ((mem_maxAgeList r eng feed_id feed_title v).mpr (Or.inl h1))
      · exact listMin1_le_mem _ _ v
          ((mem_maxAgeList r eng feed_id feed_title v).mpr (Or.inr h1))

/-- Witness for C1: a concrete excluded feed gets `timedelta.max`, and with a
feed-specific override of 5 days the result is at most 5 days. -/
theorem max_age_min_spec_witness :
    Rules.max_age ⟨30, some 7, [(1, 5)], [], [], []⟩ litEngine 3 none =
        timedeltaMax ∧
      Rules.max_age ⟨30, none, [(1, 5)], [], [], []⟩ litEngine 1 none ≤
        timedeltaDays 5 :=
  ⟨(max_age_min_spec ⟨30, some 7, [(1, 5)], [], [], []⟩ litEngine 3 none).1
      7 rfl (by decide),
   ((max_age_min_spec ⟨30, none, [(1, 5)], [], [], []⟩ litEngine 1 none).2
      (Or.inl rfl)).2 5 (Or.inr (Or.inl (by decide)))⟩

/-- C2: `Rules.keep_n` (effectiveKeepN) returns the minimum of the non-empty
set of applicable keep-n values (feed-specific if present, plus every
matching title-pattern value), `none` when that set is empty, and always
`none` for a feed excluded by an active single-feed restriction. -/
theorem keep_n_min_spec (r : Rules) (eng : RegexEngine) (feed_id : Int)
    (feed_title : Option String) :
    (∀ ofid, r.only_feed_id = some ofid → feed_id ≠ ofid →
        r.keep_n eng feed_id feed_title = none) ∧
    ((r.only_feed_id = none ∨ r.only_feed_id = some feed_id) →
      ((r.keep_n eng feed_id feed_title = none ↔
          ∀ v, ¬ applicableKeepN r eng feed_id feed_title v) ∧
       (∀ k, r.keep_n eng feed_id feed_title = some k →
          applicableKeepN r eng feed_id feed_title k ∧
            ∀ v, applicableKeepN r eng feed_id feed_title v → k ≤ v))) := by
  constructor
  · intro ofid h hne
    exact keep_n_excluded r eng feed_id feed_title ofid h hne
  · intro h
    rw [keep_n_included r eng feed_id feed_title h]
    cases hL : keepNList r eng feed_id feed_title with
    | nil =>
      constructor
      · simp only [true_iff]
        intro v hv
        have := (mem_keepNList r eng feed_id feed_title v).mpr hv
        rw [hL] at this
        cases this
      · intro k hk
        cases hk
    | cons x xs =>
      constructor
      · simp only [reduceCtorEq, false_iff, not_forall, not_not]
        refine ⟨x, (mem_keepNList r eng feed_id feed_title x).mp ?_⟩
        rw [hL]
        exact List.mem_cons_self x xs
      · intro k hk
        have hk' : k = listMin1 x xs := (Option.some.inj hk).symm
        subst hk'
        constructor
        · apply (mem_keepNList r eng feed_id feed_title _).mp
          rw [hL]
          rcases listMin1_eq_base_or_mem x xs with he | he
          · rw [he]; exact List.mem_cons_self x xs
          · exact List.mem_cons_of_mem x he
        · intro v hv
          have := (mem_keepNList r eng feed_id feed_title v).mpr hv
          rw [hL] at this
          rcases List.mem_cons.mp this with h2 | h2
          · rw [h2]; exact listMin1_le_base x xs
          · exact listMin1_le_mem x xs v h2

/-- Witness for C2: a concrete excluded feed gets `none`, and the value
returned for a feed with a keep-n override of 5 is an applicable value. -/
theorem keep_n_min_spec_witness :
    Rules.keep_n ⟨30, some 7, [], [(1, 5)], [], []⟩ litEngine 3 none = none ∧
      applicableKeepN ⟨30, none, [], [(1, 5)], [], []⟩ litEngine 1 none 5 :=
  ⟨(keep_n_min_spec ⟨30, some 7, [], [(1, 5)], [], []⟩ litEngine 3 none).1
      7 rfl (by decide),
   (((keep_n_min_spec ⟨30, none, [], [(1, 5)], [], []⟩ litEngine 1 none).2
      (Or.inl rfl)).2 5 (by decide)).1⟩

theorem titleAny_iff (eng : RegexEngine) (rules : List (String × Int))
    (title : Option String) :
    ((optTruthy title &&
        rules.any (fun p => eng.search p.1 (title.getD ""))) = true) ↔
      ∃ p ∈ rules, titleProvidedMatch eng title p.1 := by
  cases title with
  | none => simp [optTruthy, titleProvidedMatch]
  | some t =>
    by_cases ht : t = ""
    · subst ht
      simp [optTruthy, titleProvidedMatch]
    · have h1 : optTruthy (some t) = true := by
        simp [optTruthy, ht]
      rw [h1, Bool.true_and, Option.getD_some]
      exact anyMatch_iff eng rules t ht

theorem uses_keep_n_eq (r : Rules) (eng : RegexEngine) (feed_id : Int)
    (feed_title : Option String) :
    r.uses_keep_n eng feed_id feed_title =
      ((alookup feed_id r.keep_n_rules).isSome ||
        (optTruthy feed_title &&
          r.title_regex_keep_n_rules.any
            (fun p => eng.search p.1 (feed_title.getD "")))) := by
  unfold Rules.uses_keep_n
  rcases Bool.eq_false_or_eq_true (alookup feed_id r.keep_n_rules).isSome
      with h | h <;>
    rcases Bool.eq_false_or_eq_true (optTruthy feed_title) with h2 | h2 <;>
      simp [h, h2]

theorem uses_max_age_eq (r : Rules) (eng : RegexEngine) (feed_id : Int)
    (feed_title : Option String) :
    r.uses_max_age eng feed_id feed_title =
      ((alookup feed_id r.feed_rules).isSome ||
        (optTruthy feed_title &&
          r.title_regex_rules.any
            (fun p => eng.search p.1 (feed_title.getD ""))) ||
        !(r.uses_keep_n eng feed_id feed_title)) := by
  unfold Rules.uses_max_age
  rcases Bool.eq_false_or_eq_true (alookup feed_id r.feed_rules).isSome
      with h | h <;>
    rcases Bool.eq_false_or_eq_true (optTruthy feed_title &&
        r.title_regex_rules.any
          (fun p => eng.search p.1 (feed_title.getD ""))) with h2 | h2 <;>
      simp [h, h2]

/-- C5: `uses_keep_n` holds iff a feed-specific or matching title-pattern
keep-n rule exists (the single-feed restriction is ignored); `uses_max_age`
holds iff `uses_keep_n` is false or a feed-specific or matching title-pattern
max-age rule exists; hence `uses_max_age` is true whenever `uses_keep_n` is
false. -/
theorem uses_predicates_spec (r : Rules) (eng : RegexEngine) (feed_id : Int)
    (feed_title : Option String) :
    (r.uses_keep_n eng feed_id feed_title = true ↔
      ((∃ v, alookup feed_id r.keep_n_rules = some v) ∨
        ∃ p ∈ r.title_regex_keep_n_rules,
          titleProvidedMatch eng feed_title p.1)) ∧
    (r.uses_max_age eng feed_id feed_title = true ↔
      (r.uses_keep_n eng feed_id feed_title = false ∨
        (∃ v, alookup feed_id r.feed_rules = some v) ∨
        ∃ p ∈ r.title_regex_rules, titleProvidedMatch eng feed_title p.1)) ∧
    (r.uses_keep_n eng feed_id feed_title = false →
      r.uses_max_age eng feed_id feed_title = true) := by
  have hk := uses_keep_n_eq r eng feed_id feed_title
  have hm := uses_max_age_eq r eng feed_id feed_title
  refine ⟨?_, ?_, ?_⟩
  · rw [hk, Bool.or_eq_true, Option.isSome_iff_exists,
      titleAny_iff eng r.title_regex_keep_n_rules feed_title]
  · rw [hm, Bool.or_eq_true, Bool.or_eq_true, Option.isSome_iff_exists,
      titleAny_iff eng r.title_regex_rules feed_title, Bool.not_eq_true']
    exact or_comm
  · intro h
    rw [hm, h]
    simp

/-- Witness for C5: a store with no keep-n rules falls back to max-age for
feed 1. -/
theorem uses_predicates_spec_witness :
    Rules.uses_max_age (mkRules 30 none) litEngine 1 none = true :=
  (uses_predicates_spec (mkRules 30 none) litEngine 1 none).2.2 (by decide)

/-! ### The decision-engine claims -/

theorem keepNStep_spec (r : Rules) (eng : RegexEngine) (feed_id : Int)
    (t : String) (counts : List (Int × Int)) :
    (r.uses_keep_n eng feed_id (some t) = false ∧
      keepNStep r eng feed_id t counts = (counts, false, [])) ∨
    (r.uses_keep_n eng feed_id (some t) = true ∧
      (∃ k, r.keep_n eng feed_id (some t) = some k ∧
        (alookup feed_id counts).getD 0 + 1 > k) ∧
      ∀ k, r.keep_n eng feed_id (some t) = some k →
        keepNStep r eng feed_id t counts =
          (upsert feed_id ((alookup feed_id counts).getD 0 + 1) counts,
            true, [keepNReason k])) ∨
    (r.uses_keep_n eng feed_id (some t) = true ∧
      (¬ ∃ k, r.keep_n eng feed_id (some t) = some k ∧
        (alookup feed_id counts).getD 0 + 1 > k) ∧
      keepNStep r eng feed_id t counts =
        (upsert feed_id ((alookup feed_id counts).getD 0 + 1) counts,
          false, [])) := by
  have hup : alookup feed_id
      (upsert feed_id ((alookup feed_id counts).getD 0 + 1) counts) =
      some ((alookup feed_id counts).getD 0 + 1) :=
    alookup_upsert_self feed_id _ counts
  rcases Bool.eq_false_or_eq_true (r.uses_keep_n eng feed_id (some t))
      with hk | hk
  · right
    cases hkn : r.keep_n eng feed_id (some t) with
    | none =>
      right
      refine ⟨hk, ?_, by simp [keepNStep, hk, hkn]⟩
      rintro ⟨k, hks, -⟩
      exact Option.noConfusion hks
    | some k0 =>
      by_cases hgt : (alookup feed_id counts).getD 0 + 1 > k0
      · left
        refine ⟨hk, ⟨k0, rfl, hgt⟩, ?_⟩
        intro k hks
        cases Option.some.inj hks
        simp [keepNStep, hk, hkn, hup, hgt]
      · right
        refine ⟨hk, ?_, ?_⟩
        · rintro ⟨k, hks, hgtk⟩
          cases Option.some.inj hks
          exact hgt hgtk
        · simp [keepNStep, hk, hkn, hup, hgt]
  · left
    exact ⟨hk, by simp [keepNStep, hk]⟩

theorem maxAgeStep_spec (r : Rules) (eng : RegexEngine) (feed_id : Int)
    (t : String) (age : Int) :
    (r.uses_max_age eng feed_id (some t) = true ∧
      age > r.max_age eng feed_id (some t) ∧
      maxAgeStep r eng feed_id t age =
        (true, [maxAgeReason (tdDays age)
            (tdDays (r.max_age eng feed_id (some t)))])) ∨
    (¬ (r.uses_max_age eng feed_id (some t) = true ∧
        age > r.max_age eng feed_id (some t)) ∧
      maxAgeStep r eng feed_id t age = (false, [])) := by
  rcases Bool.eq_false_or_eq_true (r.uses_max_age eng feed_id (some t))
      with hm | hm
  · by_cases hgt : age > r.max_age eng feed_id (some t)
    · left
      exact ⟨hm, hgt, by simp [maxAgeStep, hm, hgt]⟩
    · right
      refine ⟨?_, by simp [maxAgeStep, hm, hgt]⟩
      rintro ⟨-, hgt'⟩
      exact hgt hgt'
  · right
    refine ⟨?_, by simp [maxAgeStep, hm]⟩
    rintro ⟨hm', -⟩
    rw [hm] at hm'
    cases hm'

theorem processEntry_entry (r : Rules) (eng : RegexEngine)
    (ft : Int → String) (now : Int) (counts : List (Int × Int)) (e : Entry) :
    (processEntry r eng ft now counts e).2.entry = e := rfl

theorem runArchive_go (r : Rules) (eng : RegexEngine) (ft : Int → String)
    (now : Int) :
    ∀ (l : List Entry) (c : List (Int × Int)) (acc : List Decision),
      ((l.foldl
          (fun st e =>
            let step := processEntry r eng ft now st.1 e
            (step.1, st.2 ++ [step.2]))
          (c, acc)).2).map Decision.entry = acc.map Decision.entry ++ l := by
  intro l
  induction l with
  | nil => intro c acc; simp
  | cons e es ih =>
    intro c acc
    rw [List.foldl_cons, ih]
    simp [processEntry_entry]

/-- The decisions of `run_archive` are emitted one per entry, in the order
of the newest-first sorted entry list. -/
theorem runArchive_entries (r : Rules) (eng : RegexEngine)
    (ft : Int → String) (now : Int) (entries : List Entry) :
    (runArchive r eng ft now entries).map Decision.entry =
      sortEntries entries := by
  unfold runArchive
  rw [runArchive_go]
  simp

/-- Scenario for C3: feed 200 has `keep_n = 3`. -/
def keepScenarioRules : Rules := ⟨30, none, [], [(200, 3)], [], []⟩

/-- Scenario for C3: four unread entries of feed 200, listed out of order;
ids 1–4 name them from newest to oldest. -/
def keepScenarioEntries : List Entry :=
  [⟨3, 200, 970000000000⟩, ⟨1, 200, 990000000000⟩,
   ⟨4, 200, 960000000000⟩, ⟨2, 200, 980000000000⟩]

/-- C3: `run_archive` traverses entries newest-first; for each entry whose
feed has `uses_keep_n`, the feed's counter is incremented and the entry is
marked with reason "keeping only N most recent entries" exactly when the
effective keep-n is set and the post-increment counter exceeds it; in the
four-entry scenario with `keep_n = 3` the three newest keep and the fourth
archives. -/
theorem keep_n_trigger_spec (r : Rules) (eng : RegexEngine)
    (ft : Int → String) (now : Int) (entries : List Entry)
    (counts : List (Int × Int)) (e : Entry) :
    ((runArchive r eng ft now entries).map Decision.entry =
        sortEntries entries ∧
      (sortEntries entries).Pairwise entryGE ∧
      (sortEntries entries).Perm entries) ∧
    ((r.uses_keep_n eng e.feed_id (some (ft e.feed_id)) = true →
        alookup e.feed_id (processEntry r eng ft now counts e).1 =
          some ((alookup e.feed_id counts).getD 0 + 1) ∧
        (∀ k, r.keep_n eng e.feed_id (some (ft e.feed_id)) = some k →
            (alookup e.feed_id counts).getD 0 + 1 > k →
            keepNReason k ∈ (processEntry r eng ft now counts e).2.reasons ∧
              (processEntry r eng ft now counts e).2.archive = true) ∧
        ((∃ k', keepNReason k' ∈
              (processEntry r eng ft now counts e).2.reasons) →
          ∃ k, r.keep_n eng e.feed_id (some (ft e.feed_id)) = some k ∧
            (alookup e.feed_id counts).getD 0 + 1 > k)) ∧
      (r.uses_keep_n eng e.feed_id (some (ft e.feed_id)) = false →
        (processEntry r eng ft now counts e).1 = counts ∧
        ∀ k', keepNReason k' ∉
          (processEntry r eng ft now counts e).2.reasons)) ∧
    ((runArchive keepScenarioRules litEngine (fun _ => "Feed") 1000000000000
        keepScenarioEntries).map
          (fun d => (d.entry.id, d.archive, d.reasons)) =
      [(1, false, []), (2, false, []), (3, false, []),
        (4, true, [keepNReason 3])]) := by
  refine ⟨⟨runArchive_entries r eng ft now entries,
      List.sorted_insertionSort entryGE entries,
      List.perm_insertionSort entryGE entries⟩, ⟨?_, ?_⟩, by decide⟩
  · intro hk
    have hks := keepNStep_spec r eng e.feed_id (ft e.feed_id) counts
    have hms := maxAgeStep_spec r eng e.feed_id (ft e.feed_id)
      (now - e.published)
    have hnomax : ∀ k', keepNReason k' ∈
        (maxAgeStep r eng e.feed_id (ft e.feed_id) (now - e.published)).2 →
        False := by
      intro k' hmem
      rcases hms with ⟨-, -, heq⟩ | ⟨-, heq⟩ <;> rw [heq] at hmem
      · exact keepNReason_ne_maxAgeReason k' _ _ (List.mem_singleton.mp hmem)
      · cases hmem
    rcases hks with ⟨hk', -⟩ | ⟨-, ⟨k0, hk0, hgt0⟩, heqf⟩ | ⟨-, hnot, heq⟩
    · rw [hk] at hk'; cases hk'
    · have heq := heqf k0 hk0
      refine ⟨?_, ?_, ?_⟩
      · show alookup e.feed_id (keepNStep r eng e.feed_id (ft e.feed_id)
            counts).1 = _
        rw [heq]
        exact alookup_upsert_self e.feed_id _ counts
      · intro k hksome hgtk
        have hkk : k = k0 := by
          rw [hk0] at hksome
          exact (Option.some.inj hksome).symm
        subst hkk
        constructor
        · show keepNReason k ∈ (keepNStep r eng e.feed_id (ft e.feed_id)
              counts).2.2 ++ _
          rw [heq]
          exact List.mem_append.mpr (Or.inl (List.mem_singleton.mpr rfl))
        · show ((keepNStep r eng e.feed_id (ft e.feed_id) counts).2.1 || _)
              = true
          rw [heq]
          rfl
      · intro _
        exact ⟨k0, hk0, hgt0⟩
    · refine ⟨?_, ?_, ?_⟩
      · show alookup e.feed_id (keepNStep r eng e.feed_id (ft e.feed_id)
            counts).1 = _
        rw [heq]
        exact alookup_upsert_self e.feed_id _ counts
      · intro k hksome hgtk
        exact absurd ⟨k, hksome, hgtk⟩ hnot
      · rintro ⟨k', hmem⟩
        have hmem' : keepNReason k' ∈
            (keepNStep r eng e.feed_id (ft e.feed_id) counts).2.2 ++
              (maxAgeStep r eng e.feed_id (ft e.feed_id)
                (now - e.published)).2 := hmem
        rw [heq] at hmem'
        simp only [List.nil_append] at hmem'
        exact (hnomax k' hmem').elim
  · intro hk
    have hks := keepNStep_spec r eng e.feed_id (ft e.feed_id) counts
    have hms := maxAgeStep_spec r eng e.feed_id (ft e.feed_id)
      (now - e.published)
    rcases hks with ⟨-, heq⟩ | ⟨hk', -⟩ | ⟨hk', -⟩
    · constructor
      · show (keepNStep r eng e.feed_id (ft e.feed_id) counts).1 = counts
        rw [heq]
      · intro k' hmem
        have : keepNReason k' ∈ (keepNStep r eng e.feed_id (ft e.feed_id)
            counts).2.2 ++ (maxAgeStep r eng e.feed_id (ft e.feed_id)
              (now - e.published)).2 := hmem
        rw [heq] at this
        simp only [List.nil_append] at this
        rcases hms with ⟨-, -, heq2⟩ | ⟨-, heq2⟩ <;> rw [heq2] at this
        · exact keepNReason_ne_maxAgeReason k' _ _
            (List.mem_singleton.mp this)
        · cases this
    · rw [hk] at hk'; cases hk'
    · rw [hk] at hk'; cases hk'

/-- Witness for C3: the counter of feed 200 is incremented from 0 to 1 for a
concrete entry. -/
theorem keep_n_trigger_spec_witness :
    alookup (200 : Int)
        (processEntry keepScenarioRules litEngine (fun _ => "Feed") 0 []
          ⟨1, 200, 0⟩).1 =
      some ((alookup (200 : Int) ([] : List (Int × Int))).getD 0 + 1) :=
  ((keep_n_trigger_spec keepScenarioRules litEngine (fun _ => "Feed") 0 [] []
      ⟨1, 200, 0⟩).2.1.1 (by decide)).1

/-- Scenario for C4: default max-age 30 days, feed 100 overridden to 5. -/
def maxScenarioRules : Rules := ⟨30, none, [(100, 5)], [], [], []⟩

/-- C4: for an entry whose feed has `uses_max_age`, the max-age trigger fires
exactly when the entry age (now − publish timestamp) strictly exceeds the
effective max-age, contributing the reason
"&lt;age&gt; days old (max age is &lt;N&gt; days)" independently of any keep-n trigger;
the overall decision is the single boolean `archive`, true exactly when some
reason accumulated; scenario: an entry of feed 100 that is 10 days old is
archived with reason "10 days old (max age is 5 days)". -/
theorem max_age_trigger_spec (r : Rules) (eng : RegexEngine)
    (ft : Int → String) (now : Int) (counts : List (Int × Int)) (e : Entry) :
    ((r.uses_max_age eng e.feed_id (some (ft e.feed_id)) = true →
        ((now - e.published > r.max_age eng e.feed_id (some (ft e.feed_id)) →
            maxAgeReason (tdDays (now - e.published))
                (tdDays (r.max_age eng e.feed_id (some (ft e.feed_id)))) ∈
              (processEntry r eng ft now counts e).2.reasons ∧
            (processEntry r eng ft now counts e).2.archive = true) ∧
          ((∃ a m, maxAgeReason a m ∈
              (processEntry r eng ft now counts e).2.reasons) →
            now - e.published >
              r.max_age eng e.feed_id (some (ft e.feed_id))))) ∧
      (r.uses_max_age eng e.feed_id (some (ft e.feed_id)) = false →
        ∀ a m, maxAgeReason a m ∉
          (processEntry r eng ft now counts e).2.reasons) ∧
      ((processEntry r eng ft now counts e).2.archive = true ↔
        (processEntry r eng ft now counts e).2.reasons ≠ [])) ∧
    ((runArchive maxScenarioRules litEngine (fun _ => "F") (timedeltaDays 100)
        [⟨1, 100, timedeltaDays 90⟩]).map
          (fun d => (d.archive, d.reasons)) =
      [(true, ["10 days old (max age is 5 days)"])]) := by
  have hks := keepNStep_spec r eng e.feed_id (ft e.feed_id) counts
  have hms := maxAgeStep_spec r eng e.feed_id (ft e.feed_id)
    (now - e.published)
  have hreasons : (processEntry r eng ft now counts e).2.reasons =
      (keepNStep r eng e.feed_id (ft e.feed_id) counts).2.2 ++
        (maxAgeStep r eng e.feed_id (ft e.feed_id) (now - e.published)).2 :=
    rfl
  have harchive : (processEntry r eng ft now counts e).2.archive =
      ((keepNStep r eng e.feed_id (ft e.feed_id) counts).2.1 ||
        (maxAgeStep r eng e.feed_id (ft e.feed_id) (now - e.published)).1) :=
    rfl
  have hknomax : ∀ a m, maxAgeReason a m ∈
      (keepNStep r eng e.feed_id (ft e.feed_id) counts).2.2 → False := by
    intro a m hmem
    rcases hks with ⟨-, heq⟩ | ⟨-, ⟨k0, hk0, -⟩, heqf⟩ | ⟨-, -, heq⟩
    · rw [heq] at hmem; cases hmem
    · rw [heqf k0 hk0] at hmem
      exact keepNReason_ne_maxAgeReason k0 a m
        (List.mem_singleton.mp hmem).symm
    · rw [heq] at hmem; cases hmem
  refine ⟨⟨?_, ?_, ?_⟩, by decide⟩
  · intro hm
    constructor
    · intro hgt
      rcases hms with ⟨-, -, heq⟩ | ⟨hnot, -⟩
      · constructor
        · rw [hreasons, heq]
          exact List.mem_append.mpr (Or.inr (List.mem_singleton.mpr rfl))
        · rw [harchive, heq]
          simp
      · exact (hnot ⟨hm, hgt⟩).elim
    · rintro ⟨a, m, hmem⟩
      rw [hreasons] at hmem
      rcases List.mem_append.mp hmem with h1 | h2
      · exact (hknomax a m h1).elim
      · rcases hms with ⟨-, hgt, -⟩ | ⟨-, heq⟩
        · exact hgt
        · rw [heq] at h2; cases h2
  · intro hm
    intro a m hmem
    rw [hreasons] at hmem
    rcases List.mem_append.mp hmem with h1 | h2
    · exact hknomax a m h1
    · rcases hms with ⟨hm', -, -⟩ | ⟨-, heq⟩
      · rw [hm] at hm'; cases hm'
      · rw [heq] at h2; cases h2
  · rw [hreasons, harchive]
    rcases hks with ⟨-, heqk⟩ | ⟨-, ⟨k0, hk0, -⟩, heqkf⟩ | ⟨-, -, heqk⟩
    · rcases hms with ⟨-, -, heqm⟩ | ⟨-, heqm⟩ <;> rw [heqk, heqm] <;> simp
    · have heqk := heqkf k0 hk0
      rcases hms with ⟨-, -, heqm⟩ | ⟨-, heqm⟩ <;> rw [heqk, heqm] <;> simp
    · rcases hms with ⟨-, -, heqm⟩ | ⟨-, heqm⟩ <;> rw [heqk, heqm] <;> simp

/-- Witness for C4: the 10-day-old entry of feed 100 picks up the max-age
reason string. -/
theorem max_age_trigger_spec_witness :
    maxAgeReason (tdDays (timedeltaDays 100 - timedeltaDays 90))
        (tdDays (Rules.max_age maxScenarioRules litEngine 100 (some "F"))) ∈
      (processEntry maxScenarioRules litEngine (fun _ => "F")
        (timedeltaDays 100) [] ⟨1, 100, timedeltaDays 90⟩).2.reasons :=
  (((max_age_trigger_spec maxScenarioRules litEngine (fun _ => "F")
      (timedeltaDays 100) [] ⟨1, 100, timedeltaDays 90⟩).1.1
        (by decide)).1 (by decide)).1

/-! ### The load-time error claims -/

/-- Does a `feed_specific` entry raise a `SpecException`? -/
def feedRuleBad (rule : FeedRuleEntry) : Bool :=
  rule.feed_id.isNone || (rule.max_age.isNone && rule.keep_n.isNone)

/-- Does a `title_regex` entry raise a `SpecException`? -/
def titleRuleBad (eng : RegexEngine) (rule : TitleRuleEntry) : Bool :=
  rule.pattern.isNone || (rule.max_age.isNone && rule.keep_n.isNone) ||
    (match rule.pattern with
     | some p => !eng.compiles p
     | none => false)

/-- Does this optional JSON value survive `int(...)`? -/
def jvalOk : Option JVal → Bool
  | none => true
  | some v => (pyInt v).isSome

/-- Every `int(...)` coercion that `add_rules` would attempt succeeds. -/
def coercionsOk (d : RulesDict) : Bool :=
  jvalOk d.max_age &&
    (d.feed_specific.getD []).all
      (fun rule => jvalOk rule.feed_id && jvalOk rule.max_age &&
        jvalOk rule.keep_n) &&
    (d.title_regex.getD []).all
      (fun rule => jvalOk rule.max_age && jvalOk rule.keep_n)

/-- The SpecError conditions exactly as claim C6 lists them: an entry lacking
a feed id, an entry with neither threshold, a pattern failing to compile, or
no rule family present. -/
def specErrClaimed (eng : RegexEngine) (d : RulesDict) : Bool :=
  (d.feed_specific.getD []).any (fun rule => rule.feed_id.isNone) ||
    (d.feed_specific.getD []).any
      (fun rule => rule.max_age.isNone && rule.keep_n.isNone) ||
    (d.title_regex.getD []).any
      (fun rule => rule.max_age.isNone && rule.keep_n.isNone) ||
    (d.title_regex.getD []).any
      (fun rule =>
        match rule.pattern with
        | some p => !eng.compiles p
        | none => false) ||
    (d.feed_specific.isNone && d.title_regex.isNone)

theorem processFeedRule_ok (r : Rules) (rule : FeedRuleEntry)
    (h : (jvalOk rule.feed_id && jvalOk rule.max_age &&
      jvalOk rule.keep_n) = true) :
    (processFeedRule r rule).2 ≠ some LoadError.valueError ∧
      isSpecErr (processFeedRule r rule).2 = feedRuleBad rule := by
  cases hfid : rule.feed_id with
  | none =>
    constructor <;> simp [processFeedRule, hfid, isSpecErr, feedRuleBad]
  | some fidv =>
    rw [hfid] at h
    cases hma : rule.max_age with
    | none =>
      cases hkn : rule.keep_n with
      | none =>
        constructor <;>
          simp [processFeedRule, hfid, hma, hkn, isSpecErr, feedRuleBad]
      | some kv =>
        rw [hma, hkn] at h
        simp only [jvalOk, Bool.and_eq_true] at h
        obtain ⟨⟨hf, -⟩, hk⟩ := h
        obtain ⟨fid, hfid2⟩ := Option.isSome_iff_exists.mp hf
        obtain ⟨k, hk2⟩ := Option.isSome_iff_exists.mp hk
        constructor <;>
          simp [processFeedRule, hfid, hma, hkn, hfid2, hk2, isSpecErr,
            feedRuleBad]
    | some mv =>
      rw [hma] at h
      simp only [jvalOk, Bool.and_eq_true] at h
      obtain ⟨⟨hf, hm⟩, hk⟩ := h
      obtain ⟨fid, hfid2⟩ := Option.isSome_iff_exists.mp hf
      obtain ⟨m, hm2⟩ := Option.isSome_iff_exists.mp hm
      cases hkn : rule.keep_n with
      | none =>
        constructor <;>
          simp [processFeedRule, hfid, hma, hkn, hfid2, hm2, isSpecErr,
            feedRuleBad]
      | some kv =>
        rw [hkn] at hk
        simp only [jvalOk] at hk
        obtain ⟨k, hk2⟩ := Option.isSome_iff_exists.mp hk
        constructor <;>
          simp [processFeedRule, hfid, hma, hkn, hfid2, hm2, hk2, isSpecErr,
            feedRuleBad]

theorem processTitleRule_ok (eng : RegexEngine) (r : Rules)
    (rule : TitleRuleEntry)
    (h : (jvalOk rule.max_age && jvalOk rule.keep_n) = true) :
    (processTitleRule eng r rule).2 ≠ some LoadError.valueError ∧
      isSpecErr (processTitleRule eng r rule).2 = titleRuleBad eng rule := by
  cases hp : rule.pattern with
  | none =>
    constructor <;> simp [processTitleRule, hp, isSpecErr, titleRuleBad]
  | some pat =>
    cases hma : rule.max_age with
    | none =>
      cases hkn : rule.keep_n with
      | none =>
        constructor <;>
          simp [processTitleRule, hp, hma, hkn, isSpecErr, titleRuleBad]
      | some kv =>
        rw [hma, hkn] at h
        simp only [jvalOk, Bool.and_eq_true] at h
        obtain ⟨-, hk⟩ := h
        obtain ⟨k, hk2⟩ := Option.isSome_iff_exists.mp hk
        cases hc : eng.compiles pat with
        | false =>
          constructor <;>
            simp [processTitleRule, hp, hma, hkn, hc, isSpecErr, titleRuleBad]
        | true =>
          constructor <;>
            simp [processTitleRule, hp, hma, hkn, hc, hk2, isSpecErr,
              titleRuleBad]
    | some mv =>
      rw [hma] at h
      simp only [jvalOk, Bool.and_eq_true] at h
      obtain ⟨hm, hk⟩ := h
      obtain ⟨m, hm2⟩ := Option.isSome_iff_exists.mp hm
      cases hc : eng.compiles pat with
      | false =>
        constructor <;>
          simp [processTitleRule, hp, hma, hc, isSpecErr, titleRuleBad]
      | true =>
        cases hkn : rule.keep_n with
        | none =>
          constructor <;>
            simp [processTitleRule, hp, hma, hkn, hc, hm2, isSpecErr,
              titleRuleBad]
        | some kv =>
          rw [hkn] at hk
          simp only [jvalOk] at hk
          obtain ⟨k, hk2⟩ := Option.isSome_iff_exists.mp hk
          constructor <;>
            simp [processTitleRule, hp, hma, hkn, hc, hm2, hk2, isSpecErr,
              titleRuleBad]

theorem processList_ok {α : Type} (f : Rules → α → Rules × Option LoadError)
    (bad ok : α → Bool)
    (hf : ∀ (r : Rules) (x : α), ok x = true →
      (f r x).2 ≠ some LoadError.valueError ∧ isSpecErr (f r x).2 = bad x) :
    ∀ (L : List α) (r : Rules), L.all ok = true →
      (processList f r L).2 ≠ some LoadError.valueError ∧
        isSpecErr (processList f r L).2 = L.any bad := by
  intro L
  induction L with
  | nil =>
    intro r _
    constructor <;> simp [processList, isSpecErr]
  | cons x xs ih =>
    intro r h
    rw [List.all_cons, Bool.and_eq_true] at h
    obtain ⟨hx, hxs⟩ := h
    obtain ⟨hnv, hbe⟩ := hf r x hx
    cases hfx : f r x with
    | mk r' e =>
      rw [hfx] at hnv hbe
      cases e with
      | none =>
        have hbad : bad x = false := by simpa [isSpecErr] using hbe.symm
        obtain ⟨ih1, ih2⟩ := ih r' hxs
        constructor
        · simpa [processList, hfx] using ih1
        · simp [processList, hfx, ih2, List.any_cons, hbad]
      | some err =>
        cases err with
        | valueError => exact (hnv rfl).elim
        | specError msg =>
          have hbad : bad x = true := by simpa [isSpecErr] using hbe.symm
          constructor
          · simp [processList, hfx]
          · simp [processList, hfx, isSpecErr, List.any_cons, hbad]

theorem step0_ok (r : Rules) (d : RulesDict) (h : jvalOk d.max_age = true) :
    (step0 r d).2 = none := by
  cases hma : d.max_age with
  | none => simp [step0, hma]
  | some v =>
    rw [hma] at h
    simp only [jvalOk] at h
    obtain ⟨n, hn⟩ := Option.isSome_iff_exists.mp h
    simp [step0, hma, hn]

theorem addRules_err (eng : RegexEngine) (r : Rules) (d : RulesDict)
    (h : coercionsOk d = true) :
    isSpecErr (addRules eng r d).2 =
      ((d.feed_specific.getD []).any feedRuleBad ||
        ((d.title_regex.getD []).any (titleRuleBad eng) ||
          (d.feed_specific.isNone && d.title_regex.isNone))) := by
  unfold coercionsOk at h
  rw [Bool.and_eq_true, Bool.and_eq_true] at h
  obtain ⟨⟨h0, h1⟩, h2⟩ := h
  have hs0 := step0_ok r d h0
  unfold addRules
  cases hstep : step0 r d with
  | mk r0 e0 =>
    rw [hstep] at hs0
    subst hs0
    obtain ⟨hnv1, hse1⟩ := processList_ok processFeedRule feedRuleBad _
      (fun r' x hx => processFeedRule_ok r' x hx)
      (d.feed_specific.getD []) r0 h1
    cases hpl1 : processList processFeedRule r0 (d.feed_specific.getD []) with
    | mk r1 e1 =>
      rw [hpl1] at hnv1 hse1
      cases e1 with
      | some err =>
        cases err with
        | valueError => exact (hnv1 rfl).elim
        | specError msg =>
          have hbad : (d.feed_specific.getD []).any feedRuleBad = true := by
            simpa [isSpecErr] using hse1.symm
          simp [thenStep, hpl1, hbad, isSpecErr]
      | none =>
        have hbad1 : (d.feed_specific.getD []).any feedRuleBad = false := by
          simpa [isSpecErr] using hse1.symm
        obtain ⟨hnv2, hse2⟩ := processList_ok (processTitleRule eng)
          (titleRuleBad eng) _
          (fun r' x hx => processTitleRule_ok eng r' x hx)
          (d.title_regex.getD []) r1 h2
        cases hpl2 : processList (processTitleRule eng) r1
            (d.title_regex.getD []) with
        | mk r2 e2 =>
          rw [hpl2] at hnv2 hse2
          cases e2 with
          | some err =>
            cases err with
            | valueError => exact (hnv2 rfl).elim
            | specError msg =>
              have hbad2 : (d.title_regex.getD []).any (titleRuleBad eng) =
                  true := by
                simpa [isSpecErr] using hse2.symm
              simp [thenStep, hpl1, hpl2, hbad1, hbad2, isSpecErr]
          | none =>
            have hbad2 : (d.title_regex.getD []).any (titleRuleBad eng) =
                false := by
              simpa [isSpecErr] using hse2.symm
            by_cases hnone :
                (d.feed_specific.isNone && d.title_regex.isNone) = true
            · simp [thenStep, hpl1, hpl2, hbad1, hbad2, hnone, isSpecErr]
            · rw [Bool.not_eq_true] at hnone
              simp [thenStep, hpl1, hpl2, hbad1, hbad2, hnone, isSpecErr]

theorem patternFails_iff (eng : RegexEngine) (rule : TitleRuleEntry) :
    ((match rule.pattern with
      | some p => !eng.compiles p
      | none => false) = true) ↔
      ∃ p, rule.pattern = some p ∧ eng.compiles p = false := by
  cases hp : rule.pattern with
  | none => simp
  | some p =>
    constructor
    · intro hc
      exact ⟨p, rfl, by simpa using hc⟩
    · rintro ⟨p', hp', hc⟩
      cases Option.some.inj hp'
      simpa using hc

theorem exists_mem_or {α : Type} (L : List α) (p q : α → Prop) :
    (∃ x ∈ L, p x ∨ q x) ↔ (∃ x ∈ L, p x) ∨ ∃ x ∈ L, q x := by
  constructor
  · rintro ⟨x, hx, h | h⟩
    exacts [Or.inl ⟨x, hx, h⟩, Or.inr ⟨x, hx, h⟩]
  · rintro (⟨x, hx, h⟩ | ⟨x, hx, h⟩)
    exacts [⟨x, hx, Or.inl h⟩, ⟨x, hx, Or.inr h⟩]

/-- C6 (amended): provided every `int(...)` coercion in the input succeeds
(otherwise a `ValueError` may pre-empt everything), `add_rules` raises a
`SpecException` exactly when a feed-specific entry lacks a feed id, a
feed-specific or title-pattern entry has neither max-age nor keep-n, a
title-pattern entry lacks the pattern string, a present pattern fails to
compile, or neither rule family is present — always at load time. -/
theorem addRules_specError_iff (eng : RegexEngine) (r : Rules) (d : RulesDict)
    (h : coercionsOk d = true) :
    isSpecErr (addRules eng r d).2 = true ↔
      ((∃ rule ∈ d.feed_specific.getD [], rule.feed_id = none) ∨
        (∃ rule ∈ d.feed_specific.getD [],
          rule.max_age = none ∧ rule.keep_n = none) ∨
        (∃ rule ∈ d.title_regex.getD [], rule.pattern = none) ∨
        (∃ rule ∈ d.title_regex.getD [],
          rule.max_age = none ∧ rule.keep_n = none) ∨
        (∃ rule ∈ d.title_regex.getD [],
          ∃ p, rule.pattern = some p ∧ eng.compiles p = false) ∨
        (d.feed_specific = none ∧ d.title_regex = none)) := by
  rw [addRules_err eng r d h]
  simp only [Bool.or_eq_true, List.any_eq_true, feedRuleBad, titleRuleBad,
    Bool.and_eq_true, Option.isNone_iff_eq_none, patternFails_iff,
    exists_mem_or]
  simp only [or_assoc]

/-- A `title_regex` entry lacking the pattern key, with a threshold set:
`add_rules` raises a SpecError here although none of C6's four conditions
holds. -/
def c6badDict : RulesDict := ⟨none, none, some [⟨none, some (JVal.jint 5), none⟩]⟩

/-- A config whose only content is a non-numeric global max-age: C6's
"no rule family present" condition holds, yet the raised error is the
`int(...)` `ValueError`, not a SpecError. -/
def c6valDict : RulesDict := ⟨some JVal.jother, none, none⟩

/-- Counterexample to C6 as stated: (a) a title-pattern entry lacking the
pattern string raises a SpecError though none of the four listed conditions
holds; (b) a config meeting the listed "no rule family" condition fails with
a ValueError, not a SpecError. -/
theorem addRules_specError_claim_counterexample :
    (isSpecErr (addRules litEngine (mkRules 30 none) c6badDict).2 = true ∧
      specErrClaimed litEngine c6badDict = false) ∧
    (specErrClaimed litEngine c6valDict = true ∧
      (addRules litEngine (mkRules 30 none) c6valDict).2 =
        some LoadError.valueError) := by
  decide

/-- Witness for C6 (amended): the pattern-less title entry satisfies the
coercion hypothesis and is reported as a SpecError. -/
theorem addRules_specError_iff_witness :
    coercionsOk c6badDict = true ∧
      isSpecErr (addRules litEngine (mkRules 30 none) c6badDict).2 = true :=
  ⟨by decide,
    (addRules_specError_iff litEngine (mkRules 30 none) c6badDict
        (by decide)).mpr
      (Or.inr (Or.inr (Or.inl ⟨⟨none, some (JVal.jint 5), none⟩, by decide,
        rfl⟩)))⟩

/-- A one-entry `feed_specific` config for feed 1 whose max-age is `v`. -/
def c8dict (v : JVal) : RulesDict :=
  ⟨none, some [⟨some (JVal.jint 1), some v, none⟩], none⟩

/-- Counterexample to C8 as stated: a negative max-age of −5 days loads with
no error, is stored verbatim, and evaluation observes the negative
threshold. -/
theorem negative_threshold_counterexample :
    (addRules litEngine (mkRules 30 none) (c8dict (JVal.jint (-5)))).2 =
        none ∧
      alookup 1 ((addRules litEngine (mkRules 30 none)
          (c8dict (JVal.jint (-5)))).1.feed_rules) = some (-5) ∧
      Rules.max_age ((addRules litEngine (mkRules 30 none)
          (c8dict (JVal.jint (-5)))).1) litEngine 1 none =
        timedeltaDays (-5) ∧
      timedeltaDays (-5) < 0 := by
  decide

/-- C8 (amended): thresholds pass through `int(...)` with no sign check: a
non-numeric value raises a `ValueError` at load time, while any integer —
negative included — is accepted and stored unchanged. -/
theorem threshold_coercion_spec (eng : RegexEngine) (r : Rules) (v : JVal)
    (n : Int) (hv : pyInt v = none) :
    (addRules eng r (c8dict v)).2 = some LoadError.valueError ∧
      ((addRules eng r (c8dict (JVal.jint n))).2 = none ∧
        alookup 1 ((addRules eng r (c8dict (JVal.jint n))).1.feed_rules) =
          some n) := by
  have h1 : pyInt (JVal.jint 1) = some 1 := rfl
  have hn : pyInt (JVal.jint n) = some n := rfl
  refine ⟨?_, ?_, ?_⟩
  · simp [addRules, c8dict, step0, thenStep, processList, processFeedRule,
      h1, hv]
  · simp [addRules, c8dict, step0, thenStep, processList, processFeedRule,
      h1, hn]
  · simp [addRules, c8dict, step0, thenStep, processList, processFeedRule,
      h1, hn, alookup_upsert_self]

/-- Witness for C8 (amended): a non-numeric max-age raises ValueError; −5 is
accepted and stored. -/
theorem threshold_coercion_spec_witness :
    (addRules litEngine (mkRules 30 none) (c8dict JVal.jother)).2 =
        some LoadError.valueError ∧
      ((addRules litEngine (mkRules 30 none) (c8dict (JVal.jint (-5)))).2 =
          none ∧
        alookup 1 ((addRules litEngine (mkRules 30 none)
            (c8dict (JVal.jint (-5)))).1.feed_rules) = some (-5)) :=
  threshold_coercion_spec litEngine (mkRules 30 none) JVal.jother (-5) rfl

/-- C9 (amended): `validate_rules` succeeds exactly when every feed id
referenced by a feed-specific rule or the single-feed restriction is in the
subscription list, and otherwise raises a `ValidationException` naming the
first missing id in reference order (all earlier referenced ids being
present); the rule store is not touched (the function only reads it). -/
theorem validateRules_spec (r : Rules) (feeds : List Int) :
    (r.validate_rules feeds = none ↔ ∀ id ∈ referencedIds r, id ∈ feeds) ∧
    (∀ msg, r.validate_rules feeds = some msg →
      ∃ id pre post, referencedIds r = pre ++ id :: post ∧
        id ∉ feeds ∧ (∀ j ∈ pre, j ∈ feeds) ∧ msg = validationMsg id) := by
  constructor
  · unfold Rules.validate_rules
    rw [Option.map_eq_none', List.find?_eq_none]
    simp
  · intro msg hmsg
    unfold Rules.validate_rules at hmsg
    rw [Option.map_eq_some'] at hmsg
    obtain ⟨id, hfind, hmsg2⟩ := hmsg
    rw [List.find?_eq_some] at hfind
    obtain ⟨hp, pre, post, heq, hpre⟩ := hfind
    refine ⟨id, pre, post, heq, by simpa using hp, ?_, hmsg2.symm⟩
    intro j hj
    simpa using hpre j hj

/-- Witness for C9 (amended): a store with no referenced feed ids validates
against an empty subscription list. -/
theorem validateRules_spec_witness :
    Rules.validate_rules (mkRules 30 none) [] = none :=
  (validateRules_spec (mkRules 30 none) []).1.mpr (by decide)

/-- A store with feed-specific rules for feeds 1 and 2. -/
def c9r : Rules := ⟨30, none, [(1, 10), (2, 20)], [], [], []⟩

/-- Counterexample to C9 as stated: with both referenced feeds 1 and 2
missing from the subscription list, the raised message names only feed 1 —
the digit of feed id 2 appears nowhere in it — rather than listing every
missing id. -/
theorem validateRules_first_only_counterexample :
    Rules.validate_rules c9r [] = some (validationMsg 1) ∧
      (2 : Int) ∈ referencedIds c9r ∧
      ¬ ((2 : Int) ∈ ([] : List Int)) ∧
      '2' ∉ (validationMsg 1).data := by
  decide

/-- C10: `add_rules` is not atomic on failure: a config holding only a
global max-age raises the "no rule family" SpecError yet overwrites the
default max-age first, and a valid feed entry processed before an invalid
one stays stored after the exception. -/
theorem addRules_not_atomic :
    ((addRules litEngine (mkRules 30 none)
        ⟨some (JVal.jint 5), none, none⟩).2 =
          some (LoadError.specError
            "Rules file must contain either feed_specific or title_regex rules.") ∧
      (addRules litEngine (mkRules 30 none)
        ⟨some (JVal.jint 5), none, none⟩).1.default_max_age = 5 ∧
      (mkRules 30 none).default_max_age = 30) ∧
    (isSpecErr (addRules litEngine (mkRules 30 none)
        ⟨none, some [⟨some (JVal.jint 7), some (JVal.jint 3), none⟩,
          ⟨none, none, none⟩], none⟩).2 = true ∧
      alookup 7 ((addRules litEngine (mkRules 30 none)
        ⟨none, some [⟨some (JVal.jint 7), some (JVal.jint 3), none⟩,
          ⟨none, none, none⟩], none⟩).1.feed_rules) = some 3) := by
  decide

/-! ### Rule addition and the kept set (C7) -/

/-- The entries a decision list retains (not marked for archival). -/
def keptEntries (ds : List Decision) : List Entry :=
  (ds.filter (fun d => !d.archive)).map Decision.entry

/-- Decision refinement: same entry, and anything archived before stays
archived after. -/
def decisionMono (d d' : Decision) : Prop :=
  d.entry = d'.entry ∧ (d.archive = true → d'.archive = true)

/-- Loading a single feed-specific max-age rule updates exactly the
`feed_rules` dictionary, with no error. -/
theorem addRules_singleFeedMax (eng : RegexEngine) (r : Rules)
    (f m : Int) :
    addRules eng r
        ⟨none, some [⟨some (JVal.jint f), some (JVal.jint m), none⟩], none⟩ =
      ({ r with feed_rules := upsert f m r.feed_rules }, none) := by
  have hf : pyInt (JVal.jint f) = some f := rfl
  have hm : pyInt (JVal.jint m) = some m := rfl
  simp [addRules, step0, thenStep, processList, processFeedRule, hf, hm]

theorem uses_max_age_append_mono (r : Rules) (eng : RegexEngine)
    (fid0 m fid : Int) (t : Option String)
    (h : Rules.uses_max_age r eng fid t = true) :
    Rules.uses_max_age { r with feed_rules := r.feed_rules ++ [(fid0, m)] }
      eng fid t = true := by
  have hk : Rules.uses_keep_n
      { r with feed_rules := r.feed_rules ++ [(fid0, m)] } eng fid t =
      Rules.uses_keep_n r eng fid t := rfl
  rw [uses_max_age_eq] at h ⊢
  rw [hk]
  rcases Bool.or_eq_true_iff.mp h with h1 | h2
  · rcases Bool.or_eq_true_iff.mp h1 with h3 | h4
    · obtain ⟨v, hv⟩ := Option.isSome_iff_exists.mp h3
      have : alookup fid ({ r with
          feed_rules := r.feed_rules ++ [(fid0, m)] }).feed_rules =
          some v := by
        show alookup fid (r.feed_rules ++ [(fid0, m)]) = some v
        rw [alookup_append, hv]
      simp [this]
    · simp [h4]
  · simp [h2]

theorem max_age_append_le (r : Rules) (eng : RegexEngine)
    (fid0 m fid : Int) (t : Option String)
    (_hnew : alookup fid0 r.feed_rules = none) :
    Rules.max_age { r with feed_rules := r.feed_rules ++ [(fid0, m)] }
        eng fid t ≤
      Rules.max_age r eng fid t := by
  have hML : maxAgeList { r with feed_rules := r.feed_rules ++ [(fid0, m)] }
      eng fid t =
      (match alookup fid (r.feed_rules ++ [(fid0, m)]) with
       | some v => [v]
       | none => []) ++ matchingVals eng r.title_regex_rules t := rfl
  have hMR : maxAgeList r eng fid t =
      (match alookup fid r.feed_rules with
       | some v => [v]
       | none => []) ++ matchingVals eng r.title_regex_rules t := rfl
  have hlist : listMin1 r.default_max_age
      (maxAgeList { r with feed_rules := r.feed_rules ++ [(fid0, m)] }
        eng fid t) ≤
      listMin1 r.default_max_age (maxAgeList r eng fid t) := by
    rw [hML, hMR, alookup_append]
    cases ha : alookup fid r.feed_rules with
    | some v => exact le_refl _
    | none =>
      by_cases hf : fid0 = fid
      · subst hf
        have h1 : alookup fid0 [(fid0, m)] = some m := by simp [alookup]
        simp only [h1, List.nil_append, List.singleton_append]
        rw [listMin1_cons]
        exact listMin1_mono_base _ (min_le_left _ _)
      · have h1 : alookup fid [(fid0, m)] = none := by simp [alookup, hf]
        simp only [h1, List.nil_append]
        exact le_refl _
  have hmain : Rules.max_age { r with
        feed_rules := r.feed_rules ++ [(fid0, m)] } eng fid t =
      (match r.only_feed_id with
       | some ofid =>
          if fid ≠ ofid then timedeltaMax
          else timedeltaDays (listMin1 r.default_max_age
            (maxAgeList { r with feed_rules := r.feed_rules ++ [(fid0, m)] }
              eng fid t))
       | none => timedeltaDays (listMin1 r.default_max_age
          (maxAgeList { r with feed_rules := r.feed_rules ++ [(fid0, m)] }
            eng fid t))) := rfl
  have hmain2 : Rules.max_age r eng fid t =
      (match r.only_feed_id with
       | some ofid =>
          if fid ≠ ofid then timedeltaMax
          else timedeltaDays (listMin1 r.default_max_age
            (maxAgeList r eng fid t))
       | none => timedeltaDays (listMin1 r.default_max_age
          (maxAgeList r eng fid t))) := rfl
  rw [hmain, hmain2]
  cases ho : r.only_feed_id with
  | some ofid =>
    simp only []
    by_cases hfid : fid ≠ ofid
    · rw [if_pos hfid, if_pos hfid]
    · rw [if_neg hfid, if_neg hfid]
      exact timedeltaDays_mono hlist
  | none =>
    simp only []
    exact timedeltaDays_mono hlist

theorem processEntry_append_mono (r : Rules) (eng : RegexEngine)
    (ft : Int → String) (now : Int) (fid0 m : Int)
    (hnew : alookup fid0 r.feed_rules = none)
    (counts : List (Int × Int)) (e : Entry) :
    (processEntry { r with feed_rules := r.feed_rules ++ [(fid0, m)] }
        eng ft now counts e).1 =
      (processEntry r eng ft now counts e).1 ∧
    decisionMono (processEntry r eng ft now counts e).2
      (processEntry { r with feed_rules := r.feed_rules ++ [(fid0, m)] }
        eng ft now counts e).2 := by
  have hks : keepNStep { r with feed_rules := r.feed_rules ++ [(fid0, m)] }
      eng e.feed_id (ft e.feed_id) counts =
      keepNStep r eng e.feed_id (ft e.feed_id) counts := rfl
  refine ⟨?_, rfl, ?_⟩
  · show (keepNStep { r with feed_rules := r.feed_rules ++ [(fid0, m)] }
        eng e.feed_id (ft e.feed_id) counts).1 =
      (keepNStep r eng e.feed_id (ft e.feed_id) counts).1
    rw [hks]
  · intro harch
    have harch' : ((keepNStep r eng e.feed_id (ft e.feed_id) counts).2.1 ||
        (maxAgeStep r eng e.feed_id (ft e.feed_id) (now - e.published)).1) =
        true := harch
    show ((keepNStep { r with feed_rules := r.feed_rules ++ [(fid0, m)] }
        eng e.feed_id (ft e.feed_id) counts).2.1 ||
      (maxAgeStep { r with feed_rules := r.feed_rules ++ [(fid0, m)] }
        eng e.feed_id (ft e.feed_id) (now - e.published)).1) = true
    rw [hks]
    rcases Bool.or_eq_true_iff.mp harch' with hkeep | hmax
    · simp [hkeep]
    · have hmono : (maxAgeStep
          { r with feed_rules := r.feed_rules ++ [(fid0, m)] }
          eng e.feed_id (ft e.feed_id) (now - e.published)).1 = true := by
        rcases maxAgeStep_spec r eng e.feed_id (ft e.feed_id)
            (now - e.published) with ⟨hm, hgt, -⟩ | ⟨-, heq⟩
        · have hm' := uses_max_age_append_mono r eng fid0 m e.feed_id
            (some (ft e.feed_id)) hm
          have hgt' : now - e.published >
              Rules.max_age { r with
                feed_rules := r.feed_rules ++ [(fid0, m)] } eng e.feed_id
                (some (ft e.feed_id)) :=
            lt_of_le_of_lt (max_age_append_le r eng fid0 m e.feed_id
              (some (ft e.feed_id)) hnew) hgt
          rcases maxAgeStep_spec
              { r with feed_rules := r.feed_rules ++ [(fid0, m)] } eng
              e.feed_id (ft e.feed_id) (now - e.published) with
            ⟨-, -, heq'⟩ | ⟨hnot, -⟩
          · rw [heq']
          · exact (hnot ⟨hm', hgt'⟩).elim
        · rw [heq] at hmax
          cases hmax
      simp [hmono]

theorem fold_archive_mono (r r' : Rules) (eng : RegexEngine)
    (ft : Int → String) (now : Int)
    (hstep : ∀ counts e,
      (processEntry r' eng ft now counts e).1 =
        (processEntry r eng ft now counts e).1 ∧
      decisionMono (processEntry r eng ft now counts e).2
        (processEntry r' eng ft now counts e).2) :
    ∀ (l : List Entry) (counts : List (Int × Int))
      (acc acc' : List Decision),
      List.Forall₂ decisionMono acc acc' →
      List.Forall₂ decisionMono
        ((l.foldl (fun st e =>
          let step := processEntry r eng ft now st.1 e
          (step.1, st.2 ++ [step.2])) (counts, acc)).2)
        ((l.foldl (fun st e =>
          let step := processEntry r' eng ft now st.1 e
          (step.1, st.2 ++ [step.2])) (counts, acc')).2) := by
  intro l
  induction l with
  | nil => intro counts acc acc' hacc; simpa using hacc
  | cons e es ih =>
    intro counts acc acc' hacc
    simp only [List.foldl_cons]
    obtain ⟨hc, hd⟩ := hstep counts e
    rw [hc]
    exact ih (processEntry r eng ft now counts e).1 _ _
      (List.rel_append hacc (List.Forall₂.cons hd List.Forall₂.nil))

theorem kept_sublist :
    ∀ {ds ds' : List Decision}, List.Forall₂ decisionMono ds ds' →
      List.Sublist (keptEntries ds') (keptEntries ds) := by
  intro ds ds' h
  induction h with
  | nil => exact List.Sublist.refl _
  | cons hd htl ih =>
    obtain ⟨hent, harch⟩ := hd
    rename_i d d' t t'
    cases hda : d.archive with
    | true =>
      have hda' : d'.archive = true := harch hda
      simpa [keptEntries, hda, hda'] using ih
    | false =>
      cases hda' : d'.archive with
      | true =>
        simp only [keptEntries, List.filter_cons, hda, hda']
        simp only [Bool.not_true, Bool.not_false, if_true, if_false]
        exact List.Sublist.trans ih (List.sublist_cons_self _ _)
      | false =>
        simp only [keptEntries, List.filter_cons, hda, hda']
        simp only [Bool.not_true, Bool.not_false, if_true, if_false]
        rw [List.map_cons, List.map_cons, hent]
        exact List.Sublist.cons₂ _ ih

/-- C7 (amended): adding a new feed-specific max-age rule (for a feed id
with no existing feed-specific max-age override) loads cleanly and can only
shrink the set of entries the batch evaluation keeps. -/
theorem add_max_age_rule_shrinks_kept (eng : RegexEngine) (r : Rules)
    (ft : Int → String) (now : Int) (entries : List Entry) (fid0 m : Int)
    (hnew : alookup fid0 r.feed_rules = none) :
    (addRules eng r
        ⟨none, some [⟨some (JVal.jint fid0), some (JVal.jint m), none⟩],
          none⟩).2 = none ∧
    List.Sublist
      (keptEntries (runArchive
        (addRules eng r
          ⟨none, some [⟨some (JVal.jint fid0), some (JVal.jint m), none⟩],
            none⟩).1 eng ft now entries))
      (keptEntries (runArchive r eng ft now entries)) := by
  rw [addRules_singleFeedMax eng r fid0 m]
  refine ⟨rfl, ?_⟩
  rw [upsert_of_alookup_none m hnew]
  apply kept_sublist
  unfold runArchive
  exact fold_archive_mono r
    { r with feed_rules := r.feed_rules ++ [(fid0, m)] } eng ft now
    (processEntry_append_mono r eng ft now fid0 m hnew)
    (sortEntries entries) [] [] [] List.Forall₂.nil

/-- Base store for the C7 counterexample: default 30 days plus one unrelated
feed-specific rule. -/
def c7r1 : Rules := ⟨30, none, [(99, 30)], [], [], []⟩

/-- The C7 addition: a keep-n rule (N = 5) for feed 1. -/
def c7add : RulesDict :=
  ⟨none, some [⟨some (JVal.jint 1), none, some (JVal.jint 5)⟩], none⟩

/-- Counterexample to C7 as stated: adding the keep-n rule for feed 1 makes
its 100-day-old entry go from archived (max-age fallback, 100 > 30) to kept
(counter 1 ≤ 5, and the keep-n rule disables the max-age fallback) — the
kept set grows from empty to the whole batch. -/
theorem add_rule_grows_kept_counterexample :
    (addRules litEngine c7r1 c7add).2 = none ∧
      keptEntries (runArchive c7r1 litEngine (fun _ => "F")
        (timedeltaDays 100) [⟨1, 1, 0⟩]) = [] ∧
      keptEntries (runArchive (addRules litEngine c7r1 c7add).1 litEngine
        (fun _ => "F") (timedeltaDays 100) [⟨1, 1, 0⟩]) = [⟨1, 1, 0⟩] := by
  decide

/-- Witness for C7 (amended): adding max-age 5 for feed 1 shrinks the kept
set of a concrete batch (the 7-day-old entry was kept under the default 30
and is archived under the new rule). -/
theorem add_max_age_rule_shrinks_kept_witness :
    List.Sublist
      (keptEntries (runArchive
        (addRules litEngine c7r1
          ⟨none, some [⟨some (JVal.jint 1), some (JVal.jint 5), none⟩],
            none⟩).1 litEngine (fun _ => "F") (timedeltaDays 100)
        [⟨1, 1, timedeltaDays 93⟩]))
      (keptEntries (runArchive c7r1 litEngine (fun _ => "F")
        (timedeltaDays 100) [⟨1, 1, timedeltaDays 93⟩])) :=
  (add_max_age_rule_shrinks_kept litEngine c7r1 (fun _ => "F")
    (timedeltaDays 100) [⟨1, 1, timedeltaDays 93⟩] 1 5 (by decide)).2

end FeedbinArchiver
